import Mathlib

/-!
Verification of the `vibe` todo application (Django app `todos`).

The data model and operations below embed `src/todos/views.py`: the four
generic class-based views (`TodoListView`, `TodoCreateView`, `TodoUpdateView`,
`TodoDeleteView`) and the function view `toggle_todo_status`, specialised at
the configuration given in that file (ordering `['is_resolved', 'due_date']`,
form `TodoForm`, redirect target `todo_list`).  The store of persisted rows is
a list of records plus the next auto-assigned primary key.  The files
`models.py` and `forms.py` of the repository are not available; the pieces of
behaviour they decide (field defaults, form validation) are modelled from the
specification and explicitly marked as such.
-/

/-- A persisted `Todo` row, after `src/todos` `models.Todo`.
`due_date` is an optional date, embedded as an optional integer (a day
number); `description` is free text, with `""` standing for blank.
The default `is_resolved = false` of the model is applied in `createTodo`. -/
structure Todo where
  id : Nat
  title : String
  description : String
  due_date : Option Int
  is_resolved : Bool
  deriving DecidableEq

/-- The persistence layer: the table of `Todo` rows together with the next
auto-increment primary key that the database will assign on insert. -/
structure Store where
  todos : List Todo
  nextId : Nat
  deriving DecidableEq

/-- The empty database after migration: no rows, first primary key 1. -/
def initialStore : Store := ⟨[], 1⟩

/-- The kinds of HTTP response the views produce: a 302 redirect to the list
page, a 404, a 200 re-rendering the form with validation errors, a 200 with
the delete confirmation page, and a 200 with the rendered list page. -/
inductive Response where
  | redirect
  | notFound
  | formError
  | confirmPage
  | listPage
  deriving DecidableEq

/-- Row lookup by primary key, as `get_object_or_404(Todo, pk=pk)` /
the generic views' `get_object` do. -/
def findTodo (todos : List Todo) (id : Nat) : Option Todo :=
  todos.find? (fun t => t.id == id)

/-- Ordering on optional due dates as the database sorts a nullable column
ascending: NULL sorts before every value. -/
def optIntLE : Option Int → Option Int → Prop
  | none, _ => True
  | some _, none => False
  | some a, some b => a ≤ b

instance : DecidableRel optIntLE := fun a b =>
  match a, b with
  | none, _ => isTrue trivial
  | some _, none => isFalse (fun h => h)
  | some x, some y => inferInstanceAs (Decidable (x ≤ y))

/-- `false` before `true`, as the database orders a boolean column
ascending. -/
def boolVal : Bool → Nat
  | false => 0
  | true => 1

/-- The row order of `TodoListView`: `ordering = ['is_resolved', 'due_date']`,
i.e. lexicographically by `is_resolved` ascending then `due_date`
ascending. -/
def todoLE (a b : Todo) : Prop :=
  boolVal a.is_resolved < boolVal b.is_resolved ∨
    (a.is_resolved = b.is_resolved ∧ optIntLE a.due_date b.due_date)

instance : DecidableRel todoLE := fun a b =>
  inferInstanceAs (Decidable (_ ∨ _))

instance : IsTotal Todo todoLE where
  total a b := by
    rcases Nat.lt_trichotomy (boolVal a.is_resolved) (boolVal b.is_resolved) with h | h | h
    · exact Or.inl (Or.inl h)
    · have hab : a.is_resolved = b.is_resolved := by
        cases ha : a.is_resolved <;> cases hb : b.is_resolved <;>
          simp [ha, hb, boolVal] at h ⊢
      rcases (by
        cases da : a.due_date <;> cases db : b.due_date <;>
          simp [optIntLE] <;> exact le_total _ _ :
          optIntLE a.due_date b.due_date ∨ optIntLE b.due_date a.due_date) with hd | hd
      · exact Or.inl (Or.inr ⟨hab, hd⟩)
      · exact Or.inr (Or.inr ⟨hab.symm, hd⟩)
    · exact Or.inr (Or.inl h)

instance : IsTrans Todo todoLE where
  trans a b c hab hbc := by
    rcases hab with h1 | ⟨e1, d1⟩ <;> rcases hbc with h2 | ⟨e2, d2⟩
    · exact Or.inl (Nat.lt_trans h1 h2)
    · exact Or.inl (e2 ▸ h1)
    · exact Or.inl (e1 ▸ h2)
    · refine Or.inr ⟨e1.trans e2, ?_⟩
      cases da : a.due_date <;> cases db : b.due_date <;> cases dc : c.due_date <;>
        simp_all [optIntLE] <;> omega

/-- The list operation (`TodoListView`): return every stored row, sorted by
`is_resolved` ascending then `due_date` ascending. -/
def listTodos (s : Store) : List Todo :=
  List.insertionSort todoLE s.todos

/-- Modelled from the spec: `forms.py` is not in the sources, so `TodoForm`
validation is taken from the specification - `title` required and non-empty
(`due_date` arrives here already parsed, so date-format validation is outside
this embedding). -/
def validSubmission (title : String) : Bool :=
  title ≠ ""

/-- The create operation (`TodoCreateView`, POST).  On a valid form it saves
a new row - the primary key is the store's next auto-increment value and,
modelled from the spec since `models.py` is not in the sources, `is_resolved`
defaults to `false` - and redirects to the list; on an invalid form it
re-renders the form and leaves the store untouched. -/
def createTodo (s : Store) (title description : String) (due_date : Option Int) :
    Response × Store :=
  if validSubmission title then
    (Response.redirect,
      ⟨s.todos ++ [⟨s.nextId, title, description, due_date, false⟩], s.nextId + 1⟩)
  else
    (Response.formError, s)

/-- The update operation (`TodoUpdateView`, POST).  404 when no row has the
given primary key; otherwise, on a valid form, overwrite the matched row's
`title`, `description` and `due_date` with the submitted values (the form has
no `is_resolved` field, so that flag keeps its stored value) and redirect to
the list; on an invalid form re-render the form and change nothing. -/
def updateTodo (s : Store) (id : Nat) (title description : String)
    (due_date : Option Int) : Response × Store :=
  match findTodo s.todos id with
  | none => (Response.notFound, s)
  | some _ =>
    if validSubmission title then
      (Response.redirect,
        ⟨s.todos.map (fun t =>
            if t.id == id then
              { t with title := title, description := description,
                       due_date := due_date }
            else t),
          s.nextId⟩)
    else
      (Response.formError, s)

/-- The delete operation on GET (`TodoDeleteView`): 404 when the primary key
is absent, otherwise render the confirmation page without touching the
store. -/
def deleteTodoGet (s : Store) (id : Nat) : Response × Store :=
  match findTodo s.todos id with
  | none => (Response.notFound, s)
  | some _ => (Response.confirmPage, s)

/-- The delete operation on POST (`TodoDeleteView`): 404 when the primary key
is absent, otherwise remove the row permanently and redirect to the list. -/
def deleteTodoPost (s : Store) (id : Nat) : Response × Store :=
  match findTodo s.todos id with
  | none => (Response.notFound, s)
  | some _ => (Response.redirect, ⟨s.todos.filter (fun t => t.id != id), s.nextId⟩)

/-- The toggle operation (`toggle_todo_status`, reached by GET): 404 via
`get_object_or_404` when the primary key is absent; otherwise negate the
row's `is_resolved`, save, and redirect to the list. -/
def toggleTodo (s : Store) (id : Nat) : Response × Store :=
  match findTodo s.todos id with
  | none => (Response.notFound, s)
  | some _ =>
    (Response.redirect,
      ⟨s.todos.map (fun t =>
          if t.id == id then { t with is_resolved := !t.is_resolved } else t),
        s.nextId⟩)

/-- A request against the application, covering every mutating or reading
endpoint of `urls.py` as wired to the views above. -/
inductive Op where
  | list
  | create (title description : String) (due_date : Option Int)
  | update (id : Nat) (title description : String) (due_date : Option Int)
  | deleteGet (id : Nat)
  | deletePost (id : Nat)
  | toggle (id : Nat)

/-- Dispatch one request to its view. -/
def applyOp (s : Store) : Op → Response × Store
  | Op.list => (Response.listPage, s)
  | Op.create title description due_date => createTodo s title description due_date
  | Op.update id title description due_date => updateTodo s id title description due_date
  | Op.deleteGet id => deleteTodoGet s id
  | Op.deletePost id => deleteTodoPost s id
  | Op.toggle id => toggleTodo s id

/-- The store after serving a sequence of requests. -/
def applyOps (s : Store) (ops : List Op) : Store :=
  ops.foldl (fun s op => (applyOp s op).2) s

/-- The store invariant: primary keys are pairwise distinct, every persisted
`title` is non-empty, and every primary key is below the auto-increment
counter (so the counter never hands out an id already in use). -/
def Store.WF (s : Store) : Prop :=
  s.todos.Pairwise (fun a b => a.id ≠ b.id) ∧
    (∀ t ∈ s.todos, t.title ≠ "") ∧
    (∀ t ∈ s.todos, t.id < s.nextId)

instance (s : Store) : Decidable s.WF :=
  inferInstanceAs (Decidable
    (s.todos.Pairwise (fun a b : Todo => a.id ≠ b.id) ∧
      (∀ t ∈ s.todos, t.title ≠ "") ∧ (∀ t ∈ s.todos, t.id < s.nextId)))

/-- `avoids id s`: the primary key `id` is strictly below the auto-increment
counter and no stored row carries it.  Once true, every operation keeps it
true, which is what makes a deleted id permanently dead. -/
def avoids (id : Nat) (s : Store) : Prop :=
  id < s.nextId ∧ ∀ t ∈ s.todos, t.id ≠ id

/-! ### Demo data used by the witnesses -/

def demoA : Todo := ⟨1, "write the report", "draft due", some 5, false⟩

def demoB : Todo := ⟨2, "ship the release", "", some 3, true⟩

def demoStore : Store := ⟨[demoB, demoA], 3⟩

def demoC : Todo := ⟨4, "file taxes", "", some 1, false⟩

def demoStoreDue : Store := ⟨[demoA, demoC], 5⟩

/-! ### Helper lemmas -/

lemma findTodo_eq_none_iff (l : List Todo) (id : Nat) :
    findTodo l id = none ↔ ∀ t ∈ l, t.id ≠ id := by
  unfold findTodo
  rw [List.find?_eq_none]
  constructor
  · intro h t ht he
    exact h t ht (by simp [he])
  · intro h t ht hb
    exact h t ht (by simpa using hb)

lemma findTodo_isSome_of_mem {l : List Todo} {id : Nat}
    (h : ∃ t ∈ l, t.id = id) : findTodo l id ≠ none := by
  intro hn
  rcases h with ⟨t, ht, he⟩
  exact ((findTodo_eq_none_iff l id).mp hn) t ht he

lemma toggleFun_id (id : Nat) (t : Todo) :
    ((if t.id == id then { t with is_resolved := !t.is_resolved } else t) : Todo).id
      = t.id := by
  by_cases h : t.id == id <;> simp [h]

/-! ### Claims -/

/-- C2: toggling is an involution on the store: toggling the same id twice
restores the store exactly; and in the seed scenario (create "Seed Todo" into
an empty store), the list contains it, one toggle makes `is_resolved` true
and a second toggle makes it false again. -/
theorem toggle_involution :
    (∀ (s : Store) (id : Nat), (toggleTodo (toggleTodo s id).2 id).2 = s) ∧
    (∃ t ∈ listTodos (createTodo initialStore "Seed Todo" "Seed Description" (some 0)).2,
        t.title = "Seed Todo" ∧ t.is_resolved = false) ∧
    (findTodo
        (toggleTodo (createTodo initialStore "Seed Todo" "Seed Description" (some 0)).2 1).2.todos 1
      = some ⟨1, "Seed Todo", "Seed Description", some 0, true⟩) ∧
    (findTodo
        (toggleTodo
          (toggleTodo (createTodo initialStore "Seed Todo" "Seed Description" (some 0)).2 1).2
          1).2.todos 1
      = some ⟨1, "Seed Todo", "Seed Description", some 0, false⟩) := by
  refine ⟨?_, by decide, by decide, by decide⟩
  intro s id
  unfold toggleTodo
  cases hf : findTodo s.todos id with
  | none => simp [hf]
  | some t =>
    simp only
    have hcomp : (fun t : Todo => t.id == id) ∘
        (fun t : Todo => if t.id == id then { t with is_resolved := !t.is_resolved } else t) =
        (fun t : Todo => t.id == id) := by
      funext x
      by_cases h : x.id = id <;> simp [h]
    have hf2 : findTodo
        (s.todos.map (fun t => if t.id == id then { t with is_resolved := !t.is_resolved } else t))
        id = some (if t.id == id then { t with is_resolved := !t.is_resolved } else t) := by
      unfold findTodo
      rw [List.find?_map, hcomp]
      unfold findTodo at hf
      rw [hf]
      rfl
    rw [hf2]
    simp only
    have : (s.todos.map (fun t => if t.id == id then { t with is_resolved := !t.is_resolved } else t)).map
        (fun t => if t.id == id then { t with is_resolved := !t.is_resolved } else t) = s.todos := by
      rw [List.map_map]
      have hid2 : ∀ x ∈ s.todos,
          ((fun t : Todo => if t.id == id then { t with is_resolved := !t.is_resolved } else t) ∘
            (fun t : Todo => if t.id == id then { t with is_resolved := !t.is_resolved } else t)) x
          = x := by
        intro x _
        rcases x with ⟨i, ti, d, dd, r⟩
        by_cases h : i == id <;> simp [h, Function.comp]
      rw [List.map_congr_left hid2]
      simp
    rw [this]

/-- C3: toggle (reached by GET) responds 404 exactly when no row has the
target id; when a row exists it redirects to the list, keeps the
auto-increment counter and the row count, flips `is_resolved` of exactly the
matching row and leaves every other field and every other row unchanged. -/
theorem toggle_contract (s : Store) (id : Nat) :
    ((toggleTodo s id).1 = Response.notFound ↔ ∀ t ∈ s.todos, t.id ≠ id) ∧
    ((∃ t ∈ s.todos, t.id = id) →
      (toggleTodo s id).1 = Response.redirect ∧
      (toggleTodo s id).2.nextId = s.nextId ∧
      (toggleTodo s id).2.todos.length = s.todos.length ∧
      (∀ (i : Nat) (t : Todo), s.todos[i]? = some t →
        (toggleTodo s id).2.todos[i]? =
          some { t with is_resolved := if t.id = id then !t.is_resolved else t.is_resolved })) := by
  constructor
  · unfold toggleTodo
    cases hf : findTodo s.todos id with
    | none =>
      simpa using (findTodo_eq_none_iff s.todos id).mp hf
    | some t =>
      simp only
      constructor
      · intro h
        exact absurd h (by simp)
      · intro hall
        rw [(findTodo_eq_none_iff s.todos id).mpr hall] at hf
        exact Option.noConfusion hf
  · intro hex
    have hne := findTodo_isSome_of_mem hex
    unfold toggleTodo
    cases hf : findTodo s.todos id with
    | none => exact absurd hf hne
    | some t =>
      refine ⟨rfl, rfl, by simp, ?_⟩
      intro i u hu
      simp only
      rw [List.getElem?_map, hu]
      by_cases h : u.id = id <;> simp [h]

/-- C3 witness: on the demo store, row 1 exists and toggling it
redirects. -/
theorem toggle_contract_witness :
    (∃ t ∈ demoStore.todos, t.id = 1) ∧
      (toggleTodo demoStore 1).1 = Response.redirect :=
  ⟨by decide, ((toggle_contract demoStore 1).2 (by decide)).1⟩

/-- C1: the list operation returns a permutation of the stored rows; in its
output any unresolved row appears strictly before any resolved row, and among
rows of equal resolution status the one appearing earlier has the ascending
(`≤`, NULL first) due date. -/
theorem list_ordering (s : Store) :
    (listTodos s).Perm s.todos ∧
    (∀ (i j : Nat) (a b : Todo), (listTodos s)[i]? = some a →
      (listTodos s)[j]? = some b →
      a.is_resolved = false → b.is_resolved = true → i < j) ∧
    (∀ (i j : Nat) (a b : Todo), (listTodos s)[i]? = some a →
      (listTodos s)[j]? = some b → i < j →
      a.is_resolved = b.is_resolved → optIntLE a.due_date b.due_date) := by
  have hs : (listTodos s).Pairwise todoLE :=
    List.sorted_insertionSort todoLE s.todos
  rw [List.pairwise_iff_getElem] at hs
  refine ⟨List.perm_insertionSort todoLE s.todos, ?_, ?_⟩
  · intro i j a b ha hb har hbr
    rcases List.getElem?_eq_some.mp ha with ⟨hi, hae⟩
    rcases List.getElem?_eq_some.mp hb with ⟨hj, hbe⟩
    by_contra hlt
    push_neg at hlt
    rcases Nat.lt_or_eq_of_le hlt with hji | hji
    · have hle := hs j i hj hi hji
      rw [hbe, hae] at hle
      unfold todoLE at hle
      rw [har, hbr] at hle
      simp [boolVal] at hle
    · subst hji
      have hab : a = b := hae.symm.trans hbe
      rw [hab, hbr] at har
      exact Bool.noConfusion har
  · intro i j a b ha hb hij heq
    rcases List.getElem?_eq_some.mp ha with ⟨hi, hae⟩
    rcases List.getElem?_eq_some.mp hb with ⟨hj, hbe⟩
    have hle := hs i j hi hj hij
    rw [hae, hbe] at hle
    rcases hle with h | ⟨_, h⟩
    · rw [heq] at h
      exact absurd h (lt_irrefl _)
    · exact h

/-- C1 witness: on the demo store the unresolved row sorts to index 0, the
resolved one to index 1, giving 0 < 1; and on a store of two unresolved rows
the one listed first has the earlier due date. -/
theorem list_ordering_witness :
    ((listTodos demoStore)[0]? = some demoA ∧
      (listTodos demoStore)[1]? = some demoB ∧ (0 : Nat) < 1) ∧
    ((listTodos demoStoreDue)[0]? = some demoC ∧
      (listTodos demoStoreDue)[1]? = some demoA ∧
      optIntLE demoC.due_date demoA.due_date) :=
  ⟨⟨by decide, by decide,
    (list_ordering demoStore).2.1 0 1 demoA demoB (by decide) (by decide)
      rfl rfl⟩,
   ⟨by decide, by decide,
    (list_ordering demoStoreDue).2.2 0 1 demoC demoA (by decide) (by decide)
      (by decide) rfl⟩⟩

/-- C4: a valid create submission redirects to the list, grows the store by
exactly one row, keeps every pre-existing row unchanged in place, and the one
new row carries the submitted fields with `is_resolved = false`. -/
theorem create_valid (s : Store) (title description : String)
    (due_date : Option Int) (h : title ≠ "") :
    (createTodo s title description due_date).1 = Response.redirect ∧
    (createTodo s title description due_date).2.todos.length
      = s.todos.length + 1 ∧
    (∀ (i : Nat) (t : Todo), s.todos[i]? = some t →
      (createTodo s title description due_date).2.todos[i]? = some t) ∧
    ∃ t : Todo,
      (createTodo s title description due_date).2.todos[s.todos.length]?
        = some t ∧
      t.is_resolved = false ∧ t.title = title ∧ t.description = description ∧
      t.due_date = due_date := by
  have hv : validSubmission title = true := by
    simp [validSubmission, h]
  unfold createTodo
  rw [if_pos hv]
  refine ⟨rfl, by simp, ?_, ?_⟩
  · intro i t htm
    rcases List.getElem?_eq_some.mp htm with ⟨hi, _⟩
    rw [List.getElem?_append_left hi]
    exact htm
  · exact ⟨⟨s.nextId, title, description, due_date, false⟩,
      List.getElem?_concat_length s.todos _, rfl, rfl, rfl, rfl⟩

/-- C4 witness: creating a concrete todo on the demo store. -/
theorem create_valid_witness :
    ("buy milk" : String) ≠ "" ∧
      (createTodo demoStore "buy milk" "" (some 9)).1 = Response.redirect :=
  ⟨by decide, (create_valid demoStore "buy milk" "" (some 9) (by decide)).1⟩

/-- C5: an invalid create submission (empty title) re-renders the form with
errors and leaves the store exactly as it was. -/
theorem create_invalid (s : Store) (title description : String)
    (due_date : Option Int) (h : title = "") :
    (createTodo s title description due_date).1 = Response.formError ∧
    (createTodo s title description due_date).2 = s := by
  subst h
  exact ⟨rfl, rfl⟩

/-- C5 witness: creating with an empty title on the demo store. -/
theorem create_invalid_witness :
    ("" : String) = "" ∧ (createTodo demoStore "" "x" none).2 = demoStore :=
  ⟨rfl, (create_invalid demoStore "" "x" none rfl).2⟩

/-- C6: a valid update of an existing row redirects to the list, keeps the
counter and the row count, overwrites exactly the matched row's `title`,
`description` and `due_date` with the submitted values while its
`is_resolved` keeps its prior value, and leaves every other row unchanged. -/
theorem update_valid (s : Store) (id : Nat) (title description : String)
    (due_date : Option Int) (hex : ∃ t ∈ s.todos, t.id = id)
    (hv : title ≠ "") :
    (updateTodo s id title description due_date).1 = Response.redirect ∧
    (updateTodo s id title description due_date).2.nextId = s.nextId ∧
    (updateTodo s id title description due_date).2.todos.length
      = s.todos.length ∧
    ∀ (i : Nat) (t : Todo), s.todos[i]? = some t →
      (updateTodo s id title description due_date).2.todos[i]? =
        some (if t.id = id then
          { t with title := title, description := description,
                   due_date := due_date }
        else t) := by
  have hne := findTodo_isSome_of_mem hex
  have hvb : validSubmission title = true := by
    simp [validSubmission, hv]
  unfold updateTodo
  cases hf : findTodo s.todos id with
  | none => exact absurd hf hne
  | some t0 =>
    rw [if_pos hvb]
    refine ⟨rfl, rfl, by simp, ?_⟩
    intro i t htm
    simp only
    rw [List.getElem?_map, htm]
    by_cases h : t.id = id <;> simp [h]

/-- C6 witness: updating row 1 of the demo store with concrete values. -/
theorem update_valid_witness :
    (∃ t ∈ demoStore.todos, t.id = 1) ∧ ("rewrite" : String) ≠ "" ∧
      (updateTodo demoStore 1 "rewrite" "later" (some 7)).1
        = Response.redirect :=
  ⟨by decide, by decide,
    (update_valid demoStore 1 "rewrite" "later" (some 7) (by decide)
      (by decide)).1⟩

/-- C7: updating an id that no stored row carries responds 404 and leaves
the store exactly as it was: no row created, none altered. -/
theorem update_missing (s : Store) (id : Nat) (title description : String)
    (due_date : Option Int) (h : ∀ t ∈ s.todos, t.id ≠ id) :
    (updateTodo s id title description due_date).1 = Response.notFound ∧
    (updateTodo s id title description due_date).2 = s := by
  have hf := (findTodo_eq_none_iff s.todos id).mpr h
  unfold updateTodo
  rw [hf]
  exact ⟨rfl, rfl⟩

/-- C7 witness: updating the nonexistent id 999 on the demo store. -/
theorem update_missing_witness :
    (∀ t ∈ demoStore.todos, t.id ≠ 999) ∧
      (updateTodo demoStore 999 "x" "y" none).1 = Response.notFound ∧
      (updateTodo demoStore 999 "x" "y" none).2 = demoStore :=
  ⟨by decide, update_missing demoStore 999 "x" "y" none (by decide)⟩

/-- C10: a GET of the delete endpoint for an existing id renders the
confirmation page and leaves the store entirely unchanged. -/
theorem delete_get_confirm (s : Store) (id : Nat)
    (hex : ∃ t ∈ s.todos, t.id = id) :
    (deleteTodoGet s id).1 = Response.confirmPage ∧
    (deleteTodoGet s id).2 = s := by
  have hne := findTodo_isSome_of_mem hex
  unfold deleteTodoGet
  cases hf : findTodo s.todos id with
  | none => exact absurd hf hne
  | some t => exact ⟨rfl, rfl⟩

/-- C10 witness: the delete confirmation GET for row 1 of the demo store. -/
theorem delete_get_confirm_witness :
    (∃ t ∈ demoStore.todos, t.id = 1) ∧
      (deleteTodoGet demoStore 1).2 = demoStore :=
  ⟨by decide, (delete_get_confirm demoStore 1 (by decide)).2⟩

/-! ### Invariant preservation -/

lemma WF_map (s : Store) (f : Todo → Todo)
    (hid : ∀ t, (f t).id = t.id)
    (htitle : ∀ t, t.title ≠ "" → (f t).title ≠ "")
    (h : s.WF) : Store.WF ⟨s.todos.map f, s.nextId⟩ := by
  obtain ⟨hp, ht, hb⟩ := h
  refine ⟨hp.map f (fun a b hab => by simp only [hid]; exact hab), ?_, ?_⟩
  · intro t htm
    rcases List.mem_map.mp htm with ⟨u, hu, rfl⟩
    exact htitle u (ht u hu)
  · intro t htm
    rcases List.mem_map.mp htm with ⟨u, hu, rfl⟩
    rw [hid]
    exact hb u hu

lemma WF_applyOp (s : Store) (op : Op) (h : s.WF) :
    Store.WF (applyOp s op).2 := by
  obtain ⟨hp, ht, hb⟩ := h
  cases op with
  | list => exact ⟨hp, ht, hb⟩
  | create title description due_date =>
    simp only [applyOp]
    unfold createTodo
    split
    · rename_i hv
      have hv' : title ≠ "" := by simpa [validSubmission] using hv
      refine ⟨?_, ?_, ?_⟩
      · rw [List.pairwise_append]
        refine ⟨hp, List.pairwise_singleton _ _, ?_⟩
        intro a ha b hbm
        simp only [List.mem_singleton] at hbm
        subst hbm
        exact Nat.ne_of_lt (hb a ha)
      · intro t htm
        rcases List.mem_append.mp htm with h1 | h1
        · exact ht t h1
        · simp only [List.mem_singleton] at h1
          subst h1
          exact hv'
      · intro t htm
        rcases List.mem_append.mp htm with h1 | h1
        · exact Nat.lt_succ_of_lt (hb t h1)
        · simp only [List.mem_singleton] at h1
          subst h1
          exact Nat.lt_succ_self _
    · exact ⟨hp, ht, hb⟩
  | update id title description due_date =>
    simp only [applyOp]
    unfold updateTodo
    cases hf : findTodo s.todos id with
    | none => exact ⟨hp, ht, hb⟩
    | some t0 =>
      dsimp only
      split
      · rename_i hv
        have hv' : title ≠ "" := by simpa [validSubmission] using hv
        refine WF_map s _ ?_ ?_ ⟨hp, ht, hb⟩
        · intro t
          by_cases h : t.id = id <;> simp [h]
        · intro t htn
          by_cases h : t.id = id
          · simpa [h] using hv'
          · simpa [h] using htn
      · exact ⟨hp, ht, hb⟩
  | deleteGet id =>
    simp only [applyOp]
    unfold deleteTodoGet
    cases hf : findTodo s.todos id with
    | none => exact ⟨hp, ht, hb⟩
    | some _ => exact ⟨hp, ht, hb⟩
  | deletePost id =>
    simp only [applyOp]
    unfold deleteTodoPost
    cases hf : findTodo s.todos id with
    | none => exact ⟨hp, ht, hb⟩
    | some _ =>
      refine ⟨hp.sublist (List.filter_sublist _), ?_, ?_⟩
      · intro t htm
        exact ht t (List.mem_of_mem_filter htm)
      · intro t htm
        exact hb t (List.mem_of_mem_filter htm)
  | toggle id =>
    simp only [applyOp]
    unfold toggleTodo
    cases hf : findTodo s.todos id with
    | none => exact ⟨hp, ht, hb⟩
    | some _ =>
      refine WF_map s _ ?_ ?_ ⟨hp, ht, hb⟩
      · intro t
        by_cases h : t.id = id <;> simp [h]
      · intro t htn
        by_cases h : t.id = id
        · simpa [h] using htn
        · simpa [h] using htn

lemma WF_applyOps (s : Store) (ops : List Op) (h : s.WF) :
    Store.WF (applyOps s ops) := by
  induction ops generalizing s with
  | nil => exact h
  | cons op ops ih =>
    have := ih (applyOp s op).2 (WF_applyOp s op h)
    simpa [applyOps] using this

lemma avoids_applyOp (id : Nat) (s : Store) (op : Op) (h : avoids id s) :
    avoids id (applyOp s op).2 := by
  obtain ⟨hlt, hmem⟩ := h
  cases op with
  | list => exact ⟨hlt, hmem⟩
  | create title description due_date =>
    simp only [applyOp]
    unfold createTodo
    split
    · refine ⟨Nat.lt_succ_of_lt hlt, ?_⟩
      intro t htm
      rcases List.mem_append.mp htm with h1 | h1
      · exact hmem t h1
      · simp only [List.mem_singleton] at h1
        subst h1
        exact Nat.ne_of_gt hlt
    · exact ⟨hlt, hmem⟩
  | update tid title description due_date =>
    simp only [applyOp]
    unfold updateTodo
    cases hf : findTodo s.todos tid with
    | none => exact ⟨hlt, hmem⟩
    | some _ =>
      dsimp only
      split
      · refine ⟨hlt, ?_⟩
        intro t htm
        rcases List.mem_map.mp htm with ⟨u, hu, rfl⟩
        have := hmem u hu
        by_cases h : u.id = tid <;> simpa [h] using this
      · exact ⟨hlt, hmem⟩
  | deleteGet tid =>
    simp only [applyOp]
    unfold deleteTodoGet
    cases hf : findTodo s.todos tid with
    | none => exact ⟨hlt, hmem⟩
    | some _ => exact ⟨hlt, hmem⟩
  | deletePost tid =>
    simp only [applyOp]
    unfold deleteTodoPost
    cases hf : findTodo s.todos tid with
    | none => exact ⟨hlt, hmem⟩
    | some _ =>
      exact ⟨hlt, fun t htm => hmem t (List.mem_of_mem_filter htm)⟩
  | toggle tid =>
    simp only [applyOp]
    unfold toggleTodo
    cases hf : findTodo s.todos tid with
    | none => exact ⟨hlt, hmem⟩
    | some _ =>
      refine ⟨hlt, ?_⟩
      intro t htm
      rcases List.mem_map.mp htm with ⟨u, hu, rfl⟩
      have := hmem u hu
      by_cases h : u.id = tid <;> simpa [h] using this

lemma avoids_applyOps (id : Nat) (s : Store) (ops : List Op)
    (h : avoids id s) : avoids id (applyOps s ops) := by
  induction ops generalizing s with
  | nil => exact h
  | cons op ops ih =>
    have := ih (applyOp s op).2 (avoids_applyOp id s op h)
    simpa [applyOps] using this

/-- C9: the store invariant - pairwise-distinct primary keys, no empty
titles, all keys below the auto-increment counter - holds for the initial
store, is preserved by every operation, and therefore holds in every
reachable state. -/
theorem store_invariant :
    Store.WF initialStore ∧
    (∀ (s : Store) (op : Op), Store.WF s → Store.WF (applyOp s op).2) ∧
    (∀ ops : List Op, Store.WF (applyOps initialStore ops)) := by
  have hinit : Store.WF initialStore :=
    ⟨List.Pairwise.nil, by simp [initialStore], by simp [initialStore]⟩
  exact ⟨hinit, WF_applyOp, fun ops => WF_applyOps initialStore ops hinit⟩

/-- C9 witness: the demo store satisfies the invariant, and toggling
preserves it. -/
theorem store_invariant_witness :
    Store.WF demoStore ∧ Store.WF (applyOp demoStore (Op.toggle 1)).2 :=
  ⟨by decide, store_invariant.2.1 demoStore (Op.toggle 1) (by decide)⟩

/-- C8: a successful POST delete redirects, and afterwards the deleted id is
dead: it is absent from the list output; update, delete (GET and POST) and
toggle on it all respond 404; and no sequence of further requests ever
produces a row carrying that id again (ids are never reused). -/
theorem delete_terminal (s : Store) (id : Nat) (hWF : s.WF)
    (hex : ∃ t ∈ s.todos, t.id = id) :
    (deleteTodoPost s id).1 = Response.redirect ∧
    (∀ t ∈ listTodos (deleteTodoPost s id).2, t.id ≠ id) ∧
    (∀ (title description : String) (due_date : Option Int),
      (updateTodo (deleteTodoPost s id).2 id title description due_date).1
        = Response.notFound) ∧
    (deleteTodoGet (deleteTodoPost s id).2 id).1 = Response.notFound ∧
    (deleteTodoPost (deleteTodoPost s id).2 id).1 = Response.notFound ∧
    (toggleTodo (deleteTodoPost s id).2 id).1 = Response.notFound ∧
    (∀ ops : List Op,
      ∀ t ∈ (applyOps (deleteTodoPost s id).2 ops).todos, t.id ≠ id) := by
  have hne := findTodo_isSome_of_mem hex
  have hd : deleteTodoPost s id
      = (Response.redirect,
          ⟨s.todos.filter (fun t => t.id != id), s.nextId⟩) := by
    unfold deleteTodoPost
    cases hf : findTodo s.todos id with
    | none => exact absurd hf hne
    | some t => rfl
  have hmem : ∀ t ∈ s.todos.filter (fun t => t.id != id), t.id ≠ id := by
    intro t htm
    simpa using List.of_mem_filter htm
  have hnone : findTodo (s.todos.filter (fun t => t.id != id)) id = none :=
    (findTodo_eq_none_iff _ _).mpr hmem
  have hlt : id < s.nextId := by
    rcases hex with ⟨t, htm, he⟩
    exact he ▸ hWF.2.2 t htm
  rw [hd]
  refine ⟨rfl, ?_, ?_, ?_, ?_, ?_, ?_⟩
  · intro t htm
    exact hmem t ((List.perm_insertionSort todoLE _).mem_iff.mp htm)
  · intro title description due_date
    unfold updateTodo
    rw [hnone]
  · unfold deleteTodoGet
    rw [hnone]
  · unfold deleteTodoPost
    rw [hnone]
  · unfold toggleTodo
    rw [hnone]
  · intro ops t htm
    exact (avoids_applyOps id
      ⟨s.todos.filter (fun t => t.id != id), s.nextId⟩ ops ⟨hlt, hmem⟩).2 t htm

/-- C8 witness: deleting row 1 of the demo store redirects. -/
theorem delete_terminal_witness :
    Store.WF demoStore ∧ (∃ t ∈ demoStore.todos, t.id = 1) ∧
      (deleteTodoPost demoStore 1).1 = Response.redirect :=
  ⟨by decide, by decide,
    (delete_terminal demoStore 1 (by decide) (by decide)).1⟩
